import Mathlib

/-!
Verification development for the nflgame event-reconstruction core.

Shallow embedding of `nflgame/game.py` (value types, drive/play assembly,
statistic maps, the snapshot diff) and of the polling loop in
`nflgame/live.py`.  Python dictionaries (`dict` / `OrderedDict`) are
embedded as insertion-ordered association lists; integer arithmetic is
embedded as `Int`/`Nat`.  Raw-feed parsing of JSON payloads, HTTP
retrieval, and the numeric stat-code expansion table (`nflgame.statmap`,
an external pure lookup per the design) are outside the embedding: a
`Play`'s per-entity statistics arrive already expanded, exactly as
`Play.__init__` receives them from `nflgame.statmap.values`.
-/

namespace NFLGame

/-- First value bound to a key in an association list (Python `d[k]` /
`d.get(k)` reads; keys are unique in a real `dict`, so first = only). -/
def alook {κ β : Type} [DecidableEq κ] (k : κ) : List (κ × β) → Option β
  | [] => none
  | (k', v) :: t => if k' = k then some v else alook k t

/-- `d[k] = v` on an insertion-ordered dictionary: replace in place if the
key is present (an `OrderedDict` keeps the original position), otherwise
append at the end. -/
def odInsert {κ β : Type} [DecidableEq κ] (l : List (κ × β)) (k : κ) (v : β) :
    List (κ × β) :=
  match l with
  | [] => [(k, v)]
  | (k', v') :: t => if k' = k then (k, v) :: t else (k', v') :: odInsert t k v

/-- `d[k] = d.get(k, 0) + v` on an insertion-ordered dictionary of
integer counters. -/
def odAdd {κ : Type} [DecidableEq κ] (l : List (κ × Int)) (k : κ) (v : Int) :
    List (κ × Int) :=
  match alook k l with
  | some w => odInsert l k (w + v)
  | none => l ++ [(k, v)]

/-- `sys.maxint` on a 64-bit build (`_MAX_INT` in `game.py`). -/
def maxIntC : Int := 2 ^ 63 - 1

/-- A raw clock string as the feed delivers it, pre-lexed: either a
well-formed `"MM:SS"` or anything else (including a missing value).
Lexical splitting, like JSON decoding, sits outside the embedding. -/
inductive ClockStr : Type
  | mmss (minutes seconds : Nat)
  | malformed
  deriving DecidableEq, Repr

/-- `map(int, clock.split(':'))`: the parsed pair, with the
`except ValueError` / `except AttributeError` branches of
`PossessionTime.__init__` and `GameClock.__init__` yielding `(0, 0)`. -/
def parseClock : ClockStr → Nat × Nat
  | .mmss m s => (m, s)
  | .malformed => (0, 0)

/-- A raw yard-line string, pre-lexed: blank (empty or whitespace-only,
what `.strip()` empties), the midfield literal `'50'`, or a
`'TERRITORY NN'` pair.  (A string of any other shape makes the source
constructor raise, so it is outside the modeled domain.) -/
inductive Yardline : Type
  | blank
  | mid
  | side (team : String) (yd : Int)
  deriving DecidableEq, Repr

/-- The raw `qtr` strings the feed produces: a numeral (`'1'`..`'5'`, as
parsed by `int(qtr)`), or one of the sentinel words recognized by
`is_pregame` / `is_halftime` / `is_final`.  (For any other string the
source constructor leaves the object unusable — its private quarter index
is never assigned — so such strings are outside the modeled domain.) -/
inductive QtrStr : Type
  | num (n : Nat)
  | pregame
  | halftime
  | final
  deriving DecidableEq, Repr

/-- The private `__qtr` index computed by `GameClock.__init__`: an integer
quarter `>= 3` is shifted by one so that halftime can be index 3; the
sentinels map to 0, 3 and `sys.maxint`. -/
def qtrIndex : QtrStr → Nat
  | .num n => if 3 ≤ n then n + 1 else n
  | .pregame => 0
  | .halftime => 3
  | .final => maxIntC.toNat

/-- `GameClock`: raw quarter, parsed clock, and the private `__qtr`
ordering index (stored, as in the source, because the quarter *setter*
writes it directly without re-deriving it from the raw string). -/
structure GameClock : Type where
  qtr : QtrStr
  minutes : Nat
  seconds : Nat
  internalQ : Nat
  deriving DecidableEq, Repr

/-- `GameClock.__init__(qtr, clock)`. -/
def mkGameClock (q : QtrStr) (clock : ClockStr) : GameClock :=
  { qtr := q
    minutes := (parseClock clock).1
    seconds := (parseClock clock).2
    internalQ := qtrIndex q }

/-- The `quarter` property setter with an integer argument: stores the
stringified value and writes the private index directly. -/
def GameClock.setQuarter (c : GameClock) (v : Nat) : GameClock :=
  { c with qtr := .num v, internalQ := v }

/-- `GameClock.is_final`. -/
def GameClock.isFinal (c : GameClock) : Bool :=
  c.qtr = QtrStr.final

/-- `GameClock.__cmp__`: by the private quarter index, then by minutes
*descending*, then by seconds *descending* (less remaining time is
later). -/
def gcCmp (a b : GameClock) : Ordering :=
  if a.internalQ ≠ b.internalQ then compare a.internalQ b.internalQ
  else if a.minutes ≠ b.minutes then compare b.minutes a.minutes
  else compare b.seconds a.seconds

/-- `a <= b` for game clocks. -/
def gcLe (a b : GameClock) : Bool :=
  gcCmp a b ≠ Ordering.gt

/-- `PossessionTime`: minutes and seconds of possession. -/
structure PossessionTime : Type where
  minutes : Nat
  seconds : Nat
  deriving DecidableEq, Repr

/-- `PossessionTime.__init__(clock)`. -/
def mkPossessionTime (clock : ClockStr) : PossessionTime :=
  { minutes := (parseClock clock).1, seconds := (parseClock clock).2 }

/-- `FieldPosition(pos_team, yardline)` reduced to its integer offset.
`None` (the `__new__` result for a falsy yard line) is `none`; `'50'` is
midfield; otherwise `'TERR NN'` gives `-(50 - NN)` in the possessing
team's own territory and `50 - NN` in the opponent's. -/
def fieldOffset? (posTeam : String) : Yardline → Option Int
  | .blank => none
  | .mid => some 0
  | .side terr y => some (if terr = posTeam then -(50 - y) else 50 - y)

/-- `needle in hay` on character lists (Python's substring test). -/
def containsL (needle : List Char) : List Char → Bool
  | [] => needle.isEmpty
  | c :: t => needle.isPrefixOf (c :: t) || containsL needle t

/-- One entity's statistics: the GameCenter player id and the `_stats`
counter map (`PlayPlayerStats` / `GamePlayerStats` records; the
biographical fields `name`, `home`, `team` play no role in any claimed
behavior and are not modeled). -/
structure PlayerStats : Type where
  playerid : String
  stats : List (String × Int)
  deriving DecidableEq, Repr

/-- Modelled from the spec: `PlayerStats._add_stats` is absent from the
checked-in `player.py` (an older revision).  Per §4.2, `add` is the
per-key sum onto the receiver's counters; a key absent from the receiver
starts from 0. -/
def addStats (a b : PlayerStats) : PlayerStats :=
  { a with stats := b.stats.foldl (fun acc kv => odAdd acc kv.1 kv.2) a.stats }

/-- Modelled from the spec: `PlayerStats._overwrite_stats` is absent from
the checked-in `player.py`.  Per §4.4 (`max_merge` keys in only one side
pass through unchanged), it sets each given key to the given value,
leaving other keys intact. -/
def overwriteStats (a : PlayerStats) (new : List (String × Int)) : PlayerStats :=
  { a with stats := new.foldl (fun acc kv => odInsert acc kv.1 kv.2) a.stats }

/-- Modelled from the spec: `PlayerStats.__sub__` is absent from the
checked-in `player.py`.  Per §4.2, `subtract` takes `self[k] - other[k]`
per key of `self` (a key absent from `other` subtracts nothing), drops
non-positive results, and reports an entirely empty result as "no new
activity" (`None`, here `none`) rather than a zero-valued record. -/
def subtractStats (a b : PlayerStats) : Option PlayerStats :=
  let δ := a.stats.filterMap (fun kv =>
    let d := kv.2 - ((alook kv.1 b.stats).getD 0)
    if 0 < d then some (kv.1, d) else none)
  if δ.isEmpty then none else some { a with stats := δ }

/-- The raw per-play feed record, after the external stat-code expansion:
the scalar fields read by `Play.__init__`, the expanded team-level
(`'0'`-entity) stat values, and the per-entity records that
`_json_play_players` produces for the play. -/
structure PlayData : Type where
  desc : String
  timeS : ClockStr
  yrdln : Yardline
  qtr : Nat
  posteam : String
  note : String
  down : Int
  ydstogo : Int
  teamStats : List (String × Int)
  players : List PlayerStats
  deriving DecidableEq, Repr

/-- `Play`: scalar fields, the clock and field position (absent when the
record carries no possessing team), the accumulated `_stats` map, and
the per-entity records. -/
structure Play : Type where
  playid : Nat
  team : String
  desc : String
  note : String
  down : Int
  yards_togo : Int
  touchdown : Bool
  time : Option GameClock
  yardline : Option Int
  stats : List (String × Int)
  players : List PlayerStats
  deriving DecidableEq, Repr

/-- `Play.__init__`: copies the scalars, computes clock/position when a
possessing team is present, accumulates the `'0'`-entity values into
`_stats` (`get(k, 0) + v`), then flattens every per-entity value into
`_stats` by plain overwrite (duplicate statistics are overwritten, not
summed, per the comment at game.py:608-611). -/
def mkPlay (playid : Nat) (d : PlayData) : Play :=
  let teamAcc := d.teamStats.foldl (fun acc kv => odAdd acc kv.1 kv.2) []
  { playid := playid
    team := d.posteam
    desc := d.desc
    note := d.note
    down := d.down
    yards_togo := d.ydstogo
    touchdown := containsL "touchdown".toList (d.desc.toList.map Char.toLower)
    time := if d.posteam = "" then none
            else some (mkGameClock (.num d.qtr) d.timeS)
    yardline := if d.posteam = "" then none else fieldOffset? d.posteam d.yrdln
    stats := d.players.foldl
      (fun acc pl => pl.stats.foldl (fun a kv => odInsert a kv.1 kv.2) acc)
      teamAcc
    players := d.players }

/-- `Play.__eq__`: identity is (play id, description) — the description
participates because the feed rewrites it when a play is reversed. -/
def playEqb (a b : Play) : Bool :=
  a.playid = b.playid ∧ a.desc = b.desc

/-- `Play.__getattr__` behind Python's attribute protocol: a name bound
in the instance dictionary (here: a recorded statistic) is returned;
otherwise a dunder name raises `AttributeError` and every other name
yields `0`. -/
def Play.getattrD (p : Play) (name : String) : Except Unit Int :=
  match alook name p.stats with
  | some v => Except.ok v
  | none =>
    if "__".toList.isPrefixOf name.toList then Except.error () else Except.ok 0

/-- The raw per-drive feed record (`data[str(drive_num)]`): the scalar
fields read by `Drive.__init__` plus the keyed play records; `plays?` is
`none` when the record lacks a `'plays'` key. -/
structure DriveData : Type where
  posteam : String
  fds : Int
  result : String
  penyds : Int
  ydsgained : Int
  postime : ClockStr
  numplays : Int
  startQtr : QtrStr
  startTime : ClockStr
  startYrdln : Yardline
  endTime : ClockStr
  endYrdln : Yardline
  plays? : Option (List (Nat × PlayData))
  deriving DecidableEq, Repr

/-- `Drive` (the per-snapshot parse; the `game` backlink and the
positional `drive_num` index do not affect any claimed behavior). -/
structure Drive : Type where
  team : String
  first_downs : Int
  result : String
  penalty_yds : Int
  total_yds : Int
  pos_time : PossessionTime
  play_cnt : Int
  field_start : Option Int
  time_start : GameClock
  field_end : Option Int
  time_end : GameClock
  plays : List Play
  deriving DecidableEq, Repr

/-- `_json_plays`: iterate play ids in ascending numeric order; a play is
skipped when its id, or its composite `(desc, time, yrdln, qtr)` key,
repeats one already emitted in the same drive. -/
def jsonPlays (data : List (Nat × PlayData)) : List Play :=
  let ids := (data.map Prod.fst).insertionSort (· ≤ ·)
  (ids.foldl (fun (st : List Nat × List (String × ClockStr × Yardline × Nat) × List Play) pid =>
    match alook pid data with
    | none => st
    | some p =>
      let d4 := (p.desc, p.timeS, p.yrdln, p.qtr)
      if pid ∈ st.1 ∨ d4 ∈ st.2.1 then st
      else (pid :: st.1, d4 :: st.2.1, st.2.2 ++ [mkPlay pid p]))
    ([], [], [])).2.2

/-- `Drive.__init__`: `none` when the record is missing or has no plays
(the "not a valid drive" test in `_json_drives`); otherwise the scalar
copies, the end-of-drive yard-line repair (scan plays by descending id
for the first non-blank yard line, defaulting to midfield), the end
quarter taken as the maximum quarter over the drive's plays, and the
final sanity bump of the end quarter when the end clock is not later
than the start clock and the quarter index is 1 or 3. -/
def mkDrive (rd : DriveData) : Option Drive :=
  match rd.plays? with
  | none => none
  | some [] => none
  | some plays =>
    let team := rd.posteam
    let time_start := mkGameClock rd.startQtr rd.startTime
    let field_end :=
      if rd.endYrdln ≠ Yardline.blank then fieldOffset? team rd.endYrdln
      else
        let pidsDesc := (plays.map Prod.fst).insertionSort (· ≥ ·)
        match pidsDesc.filterMap (fun pid =>
            (alook pid plays).bind (fun p =>
              if p.yrdln ≠ Yardline.blank then some p.yrdln else none)) with
        | y :: _ => fieldOffset? team y
        | [] => fieldOffset? team Yardline.mid
    let maxq := (plays.map (fun p => p.2.qtr)).foldl Nat.max 0
    let te := mkGameClock (.num maxq) rd.endTime
    let time_end :=
      if gcLe te time_start ∧ (te.internalQ = 1 ∨ te.internalQ = 3) then
        te.setQuarter (te.internalQ + 1)
      else te
    some
      { team := team
        first_downs := rd.fds
        result := rd.result
        penalty_yds := rd.penyds
        total_yds := rd.ydsgained
        pos_time := mkPossessionTime rd.postime
        play_cnt := rd.numplays
        field_start := fieldOffset? team rd.startYrdln
        time_start := time_start
        field_end := field_end
        time_end := time_end
        plays := jsonPlays plays }

/-- `_json_drives`: numeric drive ids in ascending order; each record
builds a `Drive`, and only invalid records (no plays) are dropped. -/
def jsonDrives (data : List (Nat × DriveData)) : List Drive :=
  ((data.map Prod.fst).insertionSort (· ≤ ·)).filterMap
    (fun n => (alook n data).bind mkDrive)

/-- `Game`, as reconstructed from one snapshot: the event id, the game
clock, the ordered drives, and the cumulative per-entity game-level
records produced by `_json_game_player_stats` (kept abstract here, since
they are read straight off snapshot fields).  Scoreboard and schedule
fields play no role in any claimed behavior. -/
structure Game : Type where
  eid : String
  time : GameClock
  drives : List Drive
  gamePlayers : List PlayerStats
  deriving DecidableEq, Repr

/-- `Game.game_over`. -/
def gameOver (g : Game) : Bool :=
  g.time.isFinal

/-- `game.drives.plays()`: all plays of all drives, in order. -/
def playsOf (g : Game) : List Play :=
  g.drives.flatMap Drive.plays

/-- One step of `GenPlays.players()` (seq.py): first sighting of a player
id stores the record, a repeat is `+=`-merged onto the stored one. -/
def mergePlayer (acc : List (String × PlayerStats)) (pl : PlayerStats) :
    List (String × PlayerStats) :=
  match alook pl.playerid acc with
  | none => acc ++ [(pl.playerid, pl)]
  | some cur => odInsert acc pl.playerid (addStats cur pl)

/-- `game.drives.plays().players()`: the play-level per-entity records,
merged across every play of the snapshot, in first-appearance order. -/
def playersOfPlays (plays : List Play) : List PlayerStats :=
  (plays.foldl (fun acc p => p.players.foldl mergePlayer acc) []).map Prod.snd

/-- The second pass of `Game.max_player_stats` for one entity: the first
matching game-level record (if any) overwrites each of *its* keys with
`max(gameval, playside.get(key, -sys.maxint))`. -/
def maxMergeOne (gamePlayers : List PlayerStats) (newp : PlayerStats) :
    PlayerStats :=
  match gamePlayers.find? (fun pg => pg.playerid = newp.playerid) with
  | none => newp
  | some pgame =>
    overwriteStats newp
      (pgame.stats.map (fun kv =>
        (kv.1, max kv.2 ((alook kv.1 newp.stats).getD (-maxIntC)))))

/-- `Game.max_player_stats()`: seed an ordered map from the play-level
records (a fresh record overwritten with a copy of the play-level
counters), then max-merge each against its game-level record. -/
def maxPlayerStats (g : Game) : List PlayerStats :=
  let play_players := playersOfPlays (playsOf g)
  let max0 := play_players.foldl
    (fun acc pplay => odInsert acc pplay.playerid (overwriteStats ⟨pplay.playerid, []⟩ pplay.stats)) []
  max0.map (fun p => maxMergeOne g.gamePlayers p.2)

/-- The error taxonomy entry raised by `diff`'s identity assertion. -/
inductive DiffError : Type
  | eventIdentityMismatch
  deriving DecidableEq, Repr

/-- `GameDiff`: the namedtuple returned by `diff`. -/
structure GameDiff : Type where
  before : Game
  after : Game
  plays : List Play
  players : List (String × PlayerStats)
  deriving DecidableEq, Repr

/-- The inner loop of `diff`'s player pass for one `after` record: scan
every `before` record; a player-id match sets `has_before` and, when the
subtraction is not `None`, stores the delta under the id. -/
def diffInner (a : PlayerStats) (bs : List PlayerStats)
    (acc : List (String × PlayerStats)) : Bool × List (String × PlayerStats) :=
  bs.foldl
    (fun st b =>
      if b.playerid = a.playerid then
        (true,
          match subtractStats a b with
          | some pdiff => odInsert st.2 a.playerid pdiff
          | none => st.2)
      else st)
    (false, acc)

/-- The player pass of `diff`: an `after` record with no `before`
counterpart is stored whole. -/
def diffPlayers (as bs : List PlayerStats) : List (String × PlayerStats) :=
  as.foldl
    (fun acc a =>
      let st := diffInner a bs acc
      if st.1 then st.2 else odInsert st.2 a.playerid a)
    []

/-- `diff(before, after)` (game.py:419-458): requires equal event ids
(the `assert` — `EventIdentityMismatch` in the design taxonomy); the
play delta keeps each `after` play absent from `before`'s play list, in
order; the player delta compares the max-merged per-entity maps. -/
def diff (before after : Game) : Except DiffError GameDiff :=
  if after.eid = before.eid then
    let after_plays := playsOf after
    let before_plays := playsOf before
    Except.ok
      { before := before
        after := after
        plays := after_plays.filter (fun p => ¬ before_plays.any (playEqb p))
        players := diffPlayers (maxPlayerStats after) (maxPlayerStats before) }
  else Except.error DiffError.eventIdentityMismatch

/-! The polling loop of `nflgame/live.py`.  Wall-clock instants and the
schedule's kickoff datetimes are embedded as integer seconds; fetching a
snapshot for an event id is an oracle `String → Option Game` (`None`
models an unavailable or malformed payload, exactly the cases
`Game.__new__` turns into `None`). -/

/-- One schedule entry: event id and kickoff instant. -/
structure SchedInfo : Type where
  eid : String
  gametime : Int
  deriving DecidableEq, Repr

/-- The module-level mutable state: the `_completed` id list and the
`_last` retained snapshot list. -/
structure LiveState : Type where
  completed : List String
  last : Option (List Game)
  deriving DecidableEq, Repr

/-- `_game_is_active`: a future game is active when it starts within
`inactive_interval` seconds; a game already under way is active unless
its id is in the completed list. -/
def gameIsActive (info : SchedInfo) (now : Int) (completed : List String)
    (interval : Int) : Bool :=
  if now ≤ info.gametime then info.gametime - now ≤ interval
  else ¬ completed.contains info.eid

/-- `_active_games`. -/
def activeGames (sched : List SchedInfo) (now : Int) (completed : List String)
    (interval : Int) : List SchedInfo :=
  sched.filter (fun info => gameIsActive info now completed interval)

/-- `_run_active`: with no candidate games, report `False` (transition to
inactive) without touching state or invoking the callback.  Otherwise
fetch each game (unavailable feeds are skipped), split into active and
completed, extend the completed-id list, diff every fetched game against
the retained snapshot with the same id, retain this tick's active
snapshots, and hand `(active, completed, diffs)` to the callback. -/
def runActive (fetch : String → Option Game) (games : List SchedInfo)
    (st : LiveState) :
    LiveState × Bool × Option (List Game × List Game × List GameDiff) :=
  if games.isEmpty then (st, false, none)
  else
    let fetched := games.filterMap (fun info =>
      (fetch info.eid).map (fun g => (info, g)))
    let completedP := fetched.filter (fun p => gameOver p.2)
    let activeG := (fetched.filter (fun p => ¬ gameOver p.2)).map Prod.snd
    let completedG := completedP.map Prod.snd
    let diffs := (activeG ++ completedG).flatMap (fun g =>
      (st.last.getD []).filterMap (fun lg =>
        if g.eid = lg.eid then (diff lg g).toOption else none))
    ({ completed := st.completed ++ completedP.map (fun p => p.1.eid)
       last := some activeG },
     true, some (activeG, completedG, diffs))

/-- One active-mode tick of `run`: select the candidate games for the
current instant and process them. -/
def tick (sched : List SchedInfo) (fetch : String → Option Game)
    (interval : Int) (now : Int) (st : LiveState) :
    LiveState × Bool × Option (List Game × List Game × List GameDiff) :=
  runActive fetch (activeGames sched now st.completed interval) st

/-- Invariant carried by the ordered map inside `playersOfPlays` and
`maxPlayerStats`: unique keys, each value's player id equal to its key. -/
def GoodMap (m : List (String × PlayerStats)) : Prop :=
  (m.map Prod.fst).Nodup ∧ ∀ kv ∈ m, (kv.2 : PlayerStats).playerid = kv.1

/-- The per-entity delta the design specifies: subtract when the entity
is on both sides, the whole `after` record when it is new, nothing when
it is gone. -/
def mergeDiffSpec : Option PlayerStats → Option PlayerStats → Option PlayerStats
  | some a, some b => subtractStats a b
  | some a, none => some a
  | none, _ => none

/-! ### The eight clock phases of the data model -/

/-- The phases of §3, in chain order. -/
inductive Phase : Type
  | pregame
  | q1
  | q2
  | halftime
  | q3
  | q4
  | overtime
  | final
  deriving DecidableEq, Repr, Fintype

/-- Position of a phase in the spec's chain
Pregame < Q1 < Q2 < Halftime < Q3 < Q4 < Overtime < Final. -/
def Phase.idx : Phase → Nat
  | .pregame => 0
  | .q1 => 1
  | .q2 => 2
  | .halftime => 3
  | .q3 => 4
  | .q4 => 5
  | .overtime => 6
  | .final => 7

/-- The raw `qtr` value the feed uses for each phase (overtime is
quarter `'5'`). -/
def Phase.qtrStr : Phase → QtrStr
  | .pregame => .pregame
  | .q1 => .num 1
  | .q2 => .num 2
  | .halftime => .halftime
  | .q3 => .num 3
  | .q4 => .num 4
  | .overtime => .num 5
  | .final => .final

/-- A `GameClock` in a given phase with a given remaining time (the
fields `GameClock.__init__` computes for that phase's raw quarter). -/
def phaseClock (ph : Phase) (m s : Nat) : GameClock :=
  { qtr := ph.qtrStr, minutes := m, seconds := s, internalQ := qtrIndex ph.qtrStr }

/-- The per-key max-merge rule of §4.2/§4.4 stated on optional values:
`max` when both sides carry the key, pass-through when only one does. -/
def mergeSpecVal : Option Int → Option Int → Option Int
  | some pv, some gv => some (max pv gv)
  | some pv, none => some pv
  | none, some gv => some gv
  | none, none => none

/-- The end-of-drive quarter before any repair bump: the maximum quarter
listed on the drive's plays. -/
def driveMaxQ (ps : List (Nat × PlayData)) : Nat :=
  (ps.map (fun p => p.2.qtr)).foldl Nat.max 0

/-- The end `GameClock` built from the maximal play quarter. -/
def driveEndClock0 (rd : DriveData) (ps : List (Nat × PlayData)) : GameClock :=
  mkGameClock (.num (driveMaxQ ps)) rd.endTime

/-- The drive's start `GameClock`. -/
def driveStartClock (rd : DriveData) : GameClock :=
  mkGameClock rd.startQtr rd.startTime

/-! ### Concrete snapshot fixtures used by witnesses and counterexamples -/

def pdRun : PlayData :=
  { desc := "(14:55) J.Smith left guard to NE 24 for 4 yards"
    timeS := .mmss 14 55, yrdln := .side "NE" 20, qtr := 1, posteam := "NE"
    note := "", down := 1, ydstogo := 10
    teamStats := [("first_down", 1)]
    players := [⟨"00-0000001", [("rushing_yds", 4)]⟩] }

def pdPass : PlayData :=
  { desc := "(14:20) T.Brady pass to W.Welker to NE 36 for 12 yards"
    timeS := .mmss 14 20, yrdln := .side "NE" 24, qtr := 1, posteam := "NE"
    note := "", down := 2, ydstogo := 6
    teamStats := []
    players := [⟨"00-0000002", [("passing_yds", 12)]⟩,
                ⟨"00-0000003", [("receiving_yds", 12)]⟩] }

def ddBefore : DriveData :=
  { posteam := "NE", fds := 1, result := "Punt", penyds := 0, ydsgained := 4
    postime := .mmss 0 35, numplays := 1
    startQtr := .num 1, startTime := .mmss 15 0, startYrdln := .side "NE" 20
    endTime := .mmss 14 25, endYrdln := .side "NE" 24
    plays? := some [(1, pdRun)] }

def ddAfter : DriveData :=
  { posteam := "NE", fds := 1, result := "Punt", penyds := 0, ydsgained := 16
    postime := .mmss 1 10, numplays := 2
    startQtr := .num 1, startTime := .mmss 15 0, startYrdln := .side "NE" 20
    endTime := .mmss 14 10, endYrdln := .side "NE" 36
    plays? := some [(1, pdRun), (2, pdPass)] }

/-- An earlier snapshot of the example event. -/
def gBefore : Game :=
  { eid := "2013090800", time := mkGameClock (.num 1) (.mmss 14 25)
    drives := jsonDrives [(1, ddBefore)]
    gamePlayers := [⟨"00-0000001", [("rushing_yds", 4)]⟩] }

/-- A later snapshot of the same event: one more play, updated
game-level statistics. -/
def gAfter : Game :=
  { eid := "2013090800", time := mkGameClock (.num 1) (.mmss 14 10)
    drives := jsonDrives [(1, ddAfter)]
    gamePlayers := [⟨"00-0000001", [("rushing_yds", 7)]⟩,
                    ⟨"00-0000002", [("passing_yds", 12)]⟩] }

def pdDupA : PlayData :=
  { desc := "(10:00) A.Back up the middle for no gain"
    timeS := .mmss 10 0, yrdln := .side "NE" 30, qtr := 2, posteam := "NE"
    note := "", down := 1, ydstogo := 10, teamStats := [], players := [] }

def pdDupB : PlayData :=
  { desc := "(9:20) A.Back up the middle for 4 yards"
    timeS := .mmss 9 20, yrdln := .side "NE" 30, qtr := 2, posteam := "NE"
    note := "", down := 2, ydstogo := 10, teamStats := [], players := [] }

def ddDup1 : DriveData :=
  { posteam := "NE", fds := 0, result := "Punt", penyds := 0, ydsgained := 0
    postime := .mmss 0 40, numplays := 1
    startQtr := .num 2, startTime := .mmss 10 0, startYrdln := .side "NE" 30
    endTime := .mmss 9 20, endYrdln := .side "NE" 30
    plays? := some [(5, pdDupA)] }

/-- A second drive record repeating the first drive's play id 5. -/
def ddDup2 : DriveData :=
  { posteam := "NE", fds := 0, result := "Punt", penyds := 0, ydsgained := 4
    postime := .mmss 0 40, numplays := 1
    startQtr := .num 2, startTime := .mmss 9 20, startYrdln := .side "NE" 30
    endTime := .mmss 8 40, endYrdln := .side "NE" 34
    plays? := some [(5, pdDupB)] }

/-- A snapshot's drive dictionary in which drive 2 repeats a play id
already seen in drive 1. -/
def dupDrivesData : List (Nat × DriveData) := [(1, ddDup1), (2, ddDup2)]

def pdQ3a : PlayData :=
  { desc := "(4:30) A.Back left end for 3 yards"
    timeS := .mmss 4 30, yrdln := .side "NE" 40, qtr := 3, posteam := "NE"
    note := "", down := 1, ydstogo := 10, teamStats := [], players := [] }

def pdQ3b : PlayData :=
  { desc := "(3:10) A.Back right end for 2 yards"
    timeS := .mmss 3 10, yrdln := .side "NE" 43, qtr := 3, posteam := "NE"
    note := "", down := 2, ydstogo := 7, teamStats := [], players := [] }

/-- A third-quarter drive whose reported end clock (10:00 remaining) is
not later than its start clock (5:00 remaining). -/
def ddQ3 : DriveData :=
  { posteam := "NE", fds := 1, result := "Punt", penyds := 0, ydsgained := 5
    postime := .mmss 1 20, numplays := 2
    startQtr := .num 3, startTime := .mmss 5 0, startYrdln := .side "NE" 40
    endTime := .mmss 10 0, endYrdln := .side "NE" 45
    plays? := some [(1, pdQ3a), (2, pdQ3b)] }

/-- A fetched snapshot whose phase is already Final. -/
def gFinal : Game :=
  { eid := "2012090900", time := mkGameClock .final (.mmss 0 0)
    drives := [], gamePlayers := [] }

/-- The schedule used for the poller evaluation: one event whose kickoff
is at instant 60. -/
def schedOne : List SchedInfo := [⟨"2012090900", 60⟩]

/-- The example play (built by the parser from its raw record). -/
def playRun : Play := mkPlay 1 pdRun

instance {β : Type} : IsTotal (Nat × β) (fun p q => p.1 ≤ q.1) :=
  ⟨fun a b => Nat.le_total a.1 b.1⟩

instance {β : Type} : IsTrans (Nat × β) (fun p q => p.1 ≤ q.1) :=
  ⟨fun _ _ _ h1 h2 => Nat.le_trans h1 h2⟩

/-! ### Association-list lemmas -/

section ALists

variable {κ β : Type} [DecidableEq κ]

theorem alook_eq_none {k : κ} : ∀ {l : List (κ × β)},
    alook k l = none ↔ k ∉ l.map Prod.fst := by
  intro l
  induction l with
  | nil => simp [alook]
  | cons hd t ih =>
    by_cases h : hd.1 = k
    · simp [alook, h]
    · simp [alook, h, ih, Ne.symm h]

theorem alook_mem {k : κ} {v : β} : ∀ {l : List (κ × β)},
    alook k l = some v → (k, v) ∈ l := by
  intro l
  induction l with
  | nil => simp [alook]
  | cons hd t ih =>
    by_cases h : hd.1 = k
    · simp only [alook, h, if_pos]
      intro hv
      injection hv with hv
      subst hv h
      exact List.mem_cons_self _ _
    · simp only [alook, h, if_neg, not_false_iff]
      intro hm
      exact List.mem_cons_of_mem _ (ih hm)

theorem alook_of_mem_nodup {k : κ} {v : β} : ∀ {l : List (κ × β)},
    (l.map Prod.fst).Nodup → (k, v) ∈ l → alook k l = some v := by
  intro l
  induction l with
  | nil => simp
  | cons hd t ih =>
    intro hnd hm
    simp only [List.map_cons, List.nodup_cons] at hnd
    rcases List.mem_cons.mp hm with h | h
    · subst h
      simp [alook]
    · have hk : hd.1 ≠ k := by
        rintro rfl
        exact hnd.1 (List.mem_map.mpr ⟨(hd.1, v), h, rfl⟩)
      simp [alook, hk, ih hnd.2 h]

theorem alook_perm {k : κ} {l l' : List (κ × β)}
    (hnd : (l.map Prod.fst).Nodup) (hp : l.Perm l') :
    alook k l = alook k l' := by
  have hnd' : (l'.map Prod.fst).Nodup := (hp.map Prod.fst).nodup_iff.mp hnd
  cases h : alook k l with
  | none =>
    rw [alook_eq_none] at h
    rw [eq_comm, alook_eq_none]
    exact fun hm => h ((hp.map Prod.fst).mem_iff.mpr hm)
  | some v =>
    exact (alook_of_mem_nodup hnd' (hp.mem_iff.mp (alook_mem h))).symm

theorem mem_keys_odInsert {l : List (κ × β)} {k k' : κ} {v : β} :
    k' ∈ (odInsert l k v).map Prod.fst ↔ k' ∈ l.map Prod.fst ∨ k' = k := by
  induction l with
  | nil => simp [odInsert, eq_comm]
  | cons hd t ih =>
    by_cases h : hd.1 = k
    · subst h
      simp [odInsert, eq_comm]
      tauto
    · simp [odInsert, h, ih]
      tauto

theorem nodup_keys_odInsert {l : List (κ × β)} {k : κ} {v : β}
    (hnd : (l.map Prod.fst).Nodup) :
    ((odInsert l k v).map Prod.fst).Nodup := by
  induction l with
  | nil => simp [odInsert]
  | cons hd t ih =>
    simp only [List.map_cons, List.nodup_cons] at hnd
    by_cases h : hd.1 = k
    · subst h
      simp [odInsert, hnd.1, hnd.2]
    · simp only [odInsert, h, if_neg, not_false_iff, List.map_cons,
        List.nodup_cons]
      refine ⟨fun hm => ?_, ih hnd.2⟩
      rcases mem_keys_odInsert.mp hm with hm | hm
      · exact hnd.1 hm
      · exact h hm

theorem alook_odInsert {l : List (κ × β)} {k k' : κ} {v : β} :
    alook k' (odInsert l k v) = if k = k' then some v else alook k' l := by
  induction l with
  | nil => simp [odInsert, alook]
  | cons hd t ih =>
    by_cases h : hd.1 = k
    · subst h
      by_cases h' : hd.1 = k'
      · simp [odInsert, alook, h']
      · simp [odInsert, alook, h', ih]
    · by_cases h' : hd.1 = k'
      · subst h'
        simp [odInsert, h, alook, Ne.symm h]
      · simp [odInsert, h, alook, h', ih]

theorem nodup_keys_odAdd {l : List (κ × Int)} {k : κ} {v : Int}
    (hnd : (l.map Prod.fst).Nodup) :
    ((odAdd l k v).map Prod.fst).Nodup := by
  unfold odAdd
  cases h : alook k l with
  | none =>
    have hk : k ∉ l.map Prod.fst := alook_eq_none.mp h
    simpa using List.Nodup.append hnd (by simp) (by simpa using hk)
  | some w => exact nodup_keys_odInsert hnd

theorem alook_foldl_odInsert {ps : List (κ × β)}
    (hnd : (ps.map Prod.fst).Nodup) :
    ∀ (base : List (κ × β)) (k : κ),
      alook k (ps.foldl (fun acc kv => odInsert acc kv.1 kv.2) base) =
        match alook k ps with
        | some v => some v
        | none => alook k base := by
  induction ps with
  | nil => intro base k; simp [alook]
  | cons hd t ih =>
    intro base k
    simp only [List.map_cons, List.nodup_cons] at hnd
    simp only [List.foldl_cons]
    rw [ih hnd.2]
    by_cases h : hd.1 = k
    · subst h
      have ht : alook hd.1 t = none := alook_eq_none.mpr hnd.1
      simp [alook, ht, alook_odInsert]
    · simp only [alook, h, if_neg, not_false_iff]
      cases alook k t with
      | some v => simp
      | none => simp [alook_odInsert, h]

theorem nodup_keys_foldl_odInsert (ps : List (κ × β)) :
    ∀ (base : List (κ × β)), ((base.map Prod.fst).Nodup) →
      (((ps.foldl (fun acc kv => odInsert acc kv.1 kv.2) base)).map
        Prod.fst).Nodup := by
  induction ps with
  | nil => intro base h; simpa using h
  | cons hd t ih =>
    intro base h
    simpa using ih _ (nodup_keys_odInsert h)

end ALists

/-! ### Statistic-map and per-entity-pipeline lemmas -/

/-- Subtracting a record from itself reports "no new activity": every
key's delta is zero and is dropped. -/
theorem subtractStats_self {a : PlayerStats}
    (hnd : (a.stats.map Prod.fst).Nodup) : subtractStats a a = none := by
  have key : ∀ (k : String) (v : Int), (k, v) ∈ a.stats →
      v ≤ (alook k a.stats).getD 0 := by
    intro k v hkv
    rw [alook_of_mem_nodup hnd hkv]
    exact le_refl v
  simp only [subtractStats]
  simp
  exact key

/-- `addStats` keeps the receiver's player id. -/
theorem addStats_playerid (a b : PlayerStats) :
    (addStats a b).playerid = a.playerid := rfl

/-- `overwriteStats` keeps the receiver's player id. -/
theorem overwriteStats_playerid (a : PlayerStats) (l : List (String × Int)) :
    (overwriteStats a l).playerid = a.playerid := rfl

/-- `addStats` preserves uniqueness of the receiver's stat keys. -/
theorem addStats_nodup {a b : PlayerStats}
    (hnd : (a.stats.map Prod.fst).Nodup) :
    ((addStats a b).stats.map Prod.fst).Nodup := by
  unfold addStats
  simp only
  generalize a.stats = base at hnd ⊢
  induction b.stats generalizing base with
  | nil => simpa using hnd
  | cons hd t ih => exact ih _ (nodup_keys_odAdd hnd)

/-- `overwriteStats` preserves uniqueness of the receiver's stat keys. -/
theorem overwriteStats_nodup {a : PlayerStats} {l : List (String × Int)}
    (hnd : (a.stats.map Prod.fst).Nodup) :
    ((overwriteStats a l).stats.map Prod.fst).Nodup := by
  unfold overwriteStats
  simp only
  exact nodup_keys_foldl_odInsert l a.stats hnd

theorem goodMap_nil : GoodMap [] := by constructor <;> simp

theorem goodMap_append_new {m : List (String × PlayerStats)} {k : String}
    {v : PlayerStats} (hg : GoodMap m) (hk : k ∉ m.map Prod.fst)
    (hv : v.playerid = k) : GoodMap (m ++ [(k, v)]) := by
  constructor
  · simpa using List.Nodup.append hg.1 (by simp) (by simpa using hk)
  · intro kv hkv
    rcases List.mem_append.mp hkv with h | h
    · exact hg.2 _ h
    · simp at h
      subst h
      exact hv

theorem goodMap_odInsert {m : List (String × PlayerStats)} {k : String}
    {v : PlayerStats} (hg : GoodMap m) (hv : v.playerid = k) :
    GoodMap (odInsert m k v) := by
  constructor
  · exact nodup_keys_odInsert hg.1
  · intro kv hkv
    induction m with
    | nil =>
      simp [odInsert] at hkv
      subst hkv
      exact hv
    | cons hd t ih =>
      by_cases h : hd.1 = k
      · simp only [odInsert, h, if_pos] at hkv
        rcases List.mem_cons.mp hkv with h' | h'
        · subst h'; exact hv
        · exact hg.2 _ (List.mem_cons_of_mem _ h')
      · simp only [odInsert, h, if_neg, not_false_iff] at hkv
        rcases List.mem_cons.mp hkv with h' | h'
        · subst h'; exact hg.2 _ (List.mem_cons_self _ _)
        · exact ih ⟨(List.nodup_cons.mp hg.1).2,
            fun kv hkv => hg.2 _ (List.mem_cons_of_mem _ hkv)⟩ h'

theorem goodMap_mergePlayer {m : List (String × PlayerStats)}
    {pl : PlayerStats} (hg : GoodMap m) : GoodMap (mergePlayer m pl) := by
  unfold mergePlayer
  cases h : alook pl.playerid m with
  | none => exact goodMap_append_new hg (alook_eq_none.mp h) rfl
  | some cur =>
    have : cur.playerid = pl.playerid := hg.2 _ (alook_mem h)
    exact goodMap_odInsert hg (by rw [addStats_playerid, this])

theorem goodMap_foldl_mergePlayer {pls : List PlayerStats}
    {m : List (String × PlayerStats)} (hg : GoodMap m) :
    GoodMap (pls.foldl mergePlayer m) := by
  induction pls generalizing m with
  | nil => simpa using hg
  | cons hd t ih => exact ih (goodMap_mergePlayer hg)

theorem goodMap_plays_fold {plays : List Play}
    {m : List (String × PlayerStats)} (hg : GoodMap m) :
    GoodMap (plays.foldl (fun acc p => p.players.foldl mergePlayer acc) m) := by
  induction plays generalizing m with
  | nil => simpa using hg
  | cons hd t ih => exact ih (goodMap_foldl_mergePlayer hg)

/-- The merged play-level per-entity records carry pairwise-distinct
player ids. -/
theorem playersOfPlays_nodup (plays : List Play) :
    ((playersOfPlays plays).map PlayerStats.playerid).Nodup := by
  unfold playersOfPlays
  have hg : GoodMap (plays.foldl (fun acc p => p.players.foldl mergePlayer acc) []) :=
    goodMap_plays_fold goodMap_nil
  have : ((plays.foldl (fun acc p => p.players.foldl mergePlayer acc) []).map
      Prod.snd).map PlayerStats.playerid =
      (plays.foldl (fun acc p => p.players.foldl mergePlayer acc) []).map
        Prod.fst := by
    rw [List.map_map]
    exact List.map_congr_left fun kv hkv => hg.2 _ hkv
  rw [this]
  exact hg.1

/-! ### `max_player_stats` lemmas -/

/-- `maxMergeOne` keeps the record's player id. -/
theorem maxMergeOne_playerid (gp : List PlayerStats) (p : PlayerStats) :
    (maxMergeOne gp p).playerid = p.playerid := by
  unfold maxMergeOne
  cases gp.find? (fun pg => pg.playerid = p.playerid) with
  | none => rfl
  | some pgame => rfl

/-- `maxMergeOne` preserves uniqueness of a record's stat keys. -/
theorem maxMergeOne_nodup {gp : List PlayerStats} {p : PlayerStats}
    (hnd : (p.stats.map Prod.fst).Nodup) :
    ((maxMergeOne gp p).stats.map Prod.fst).Nodup := by
  unfold maxMergeOne
  cases gp.find? (fun pg => pg.playerid = p.playerid) with
  | none => exact hnd
  | some pgame => exact overwriteStats_nodup hnd

/-- The seed map built by the first pass of `max_player_stats` has the
ordered-map invariant, and each of its values both rebuilds the
play-level counters key-uniquely and remembers its id. -/
theorem maxSeed_good (pls : List PlayerStats) :
    GoodMap (pls.foldl
      (fun acc pplay =>
        odInsert acc pplay.playerid (overwriteStats ⟨pplay.playerid, []⟩ pplay.stats)) []) ∧
    ∀ kv ∈ pls.foldl
      (fun acc pplay =>
        odInsert acc pplay.playerid (overwriteStats ⟨pplay.playerid, []⟩ pplay.stats)) [],
      (((kv : String × PlayerStats).2).stats.map Prod.fst).Nodup := by
  suffices h : ∀ (base : List (String × PlayerStats)), GoodMap base →
      (∀ kv ∈ base, ((kv : String × PlayerStats).2.stats.map Prod.fst).Nodup) →
      GoodMap (pls.foldl
        (fun acc pplay =>
          odInsert acc pplay.playerid (overwriteStats ⟨pplay.playerid, []⟩ pplay.stats)) base) ∧
      ∀ kv ∈ pls.foldl
        (fun acc pplay =>
          odInsert acc pplay.playerid (overwriteStats ⟨pplay.playerid, []⟩ pplay.stats)) base,
        ((kv : String × PlayerStats).2.stats.map Prod.fst).Nodup by
    exact h [] goodMap_nil (by simp)
  induction pls with
  | nil => intro base hg hv; exact ⟨hg, hv⟩
  | cons hd t ih =>
    intro base hg hv
    simp only [List.foldl_cons]
    refine ih _ (goodMap_odInsert hg rfl) ?_
    intro kv hkv
    have hval : ((overwriteStats ⟨hd.playerid, []⟩ hd.stats).stats.map
        Prod.fst).Nodup := overwriteStats_nodup (by simp)
    clear ih
    induction base with
    | nil =>
      simp [odInsert] at hkv
      subst hkv
      exact hval
    | cons b bt ihb =>
      by_cases h : b.1 = hd.playerid
      · simp only [odInsert, h, if_pos] at hkv
        rcases List.mem_cons.mp hkv with h' | h'
        · subst h'; exact hval
        · exact hv _ (List.mem_cons_of_mem _ h')
      · simp only [odInsert, h, if_neg, not_false_iff] at hkv
        rcases List.mem_cons.mp hkv with h' | h'
        · subst h'; exact hv _ (List.mem_cons_self _ _)
        · exact ihb ⟨(List.nodup_cons.mp hg.1).2,
              fun kv hkv => hg.2 _ (List.mem_cons_of_mem _ hkv)⟩
            (fun kv hkv => hv _ (List.mem_cons_of_mem _ hkv)) h'

/-- Every max-merged record rebuilds its stat keys uniquely. -/
theorem maxPlayerStats_stats_nodup {g : Game} {st : PlayerStats}
    (hst : st ∈ maxPlayerStats g) : (st.stats.map Prod.fst).Nodup := by
  unfold maxPlayerStats at hst
  rcases List.mem_map.mp hst with ⟨kv, hkv, rfl⟩
  exact maxMergeOne_nodup ((maxSeed_good _).2 _ hkv)

/-- The max-merged records carry pairwise-distinct player ids. -/
theorem maxPlayerStats_pids_nodup (g : Game) :
    ((maxPlayerStats g).map PlayerStats.playerid).Nodup := by
  unfold maxPlayerStats
  rw [List.map_map]
  have hg := (maxSeed_good (playersOfPlays (playsOf g))).1
  have : (List.map (PlayerStats.playerid ∘ fun p => maxMergeOne g.gamePlayers p.2)
      ((playersOfPlays (playsOf g)).foldl
        (fun acc pplay =>
          odInsert acc pplay.playerid (overwriteStats ⟨pplay.playerid, []⟩ pplay.stats))
        []) : List String) =
      ((playersOfPlays (playsOf g)).foldl
        (fun acc pplay =>
          odInsert acc pplay.playerid (overwriteStats ⟨pplay.playerid, []⟩ pplay.stats))
        []).map Prod.fst := by
    refine List.map_congr_left fun kv hkv => ?_
    simp only [Function.comp_apply, maxMergeOne_playerid]
    exact hg.2 _ hkv
  rw [this]
  exact hg.1

/-- Looking a player id up in the seed map finds exactly the (unique)
play-level record with that id, rebuilt key-uniquely. -/
theorem alook_maxSeed (gf : PlayerStats → PlayerStats) :
    ∀ (pls : List PlayerStats) (base : List (String × PlayerStats))
      (pid : String),
      ((pls.map PlayerStats.playerid).Nodup) →
      (∀ pl ∈ pls, alook pl.playerid base = none) →
      alook pid (pls.foldl (fun acc pl => odInsert acc pl.playerid (gf pl)) base) =
        match pls.find? (fun pl => pl.playerid = pid) with
        | some pl => some (gf pl)
        | none => alook pid base := by
  intro pls
  induction pls with
  | nil => intro base pid _ _; simp
  | cons hd t ih =>
    intro base pid hnd hacc
    simp only [List.map_cons, List.nodup_cons] at hnd
    simp only [List.foldl_cons]
    have hacc' : ∀ pl ∈ t, alook pl.playerid (odInsert base hd.playerid (gf hd)) = none := by
      intro pl hpl
      rw [alook_odInsert]
      have : hd.playerid ≠ pl.playerid := by
        intro h
        exact hnd.1 (h ▸ List.mem_map.mpr ⟨pl, hpl, rfl⟩)
      rw [if_neg this]
      exact hacc _ (List.mem_cons_of_mem _ hpl)
    rw [ih _ pid hnd.2 hacc']
    by_cases h : hd.playerid = pid
    · have ht : t.find? (fun pl => pl.playerid = pid) = none := by
        rw [List.find?_eq_none]
        intro pl hpl
        simp only [decide_eq_true_eq]
        intro hpid
        exact hnd.1 (h ▸ hpid ▸ List.mem_map.mpr ⟨pl, hpl, rfl⟩)
      simp [ht, List.find?_cons, h, alook_odInsert]
    · simp [List.find?_cons, h]
      cases t.find? (fun pl => pl.playerid = pid) with
      | some pl => simp
      | none => simp [alook_odInsert, h]

/-- `find?` agrees on predicates that agree on the list's members. -/
theorem find?_congr_mem {α : Type} {l : List α} {p q : α → Bool}
    (h : ∀ a ∈ l, p a = q a) : l.find? p = l.find? q := by
  induction l with
  | nil => rfl
  | cons hd t ih =>
    rw [List.find?_cons, List.find?_cons, h hd (List.mem_cons_self _ _)]
    cases q hd with
    | true => rfl
    | false => exact ih fun a ha => h a (List.mem_cons_of_mem _ ha)

/-- Finding the first pair with a given key is the same scan as `alook`. -/
theorem find?_fst_alook {β : Type} {k : String} : ∀ {l : List (String × β)},
    l.find? (fun kv => kv.1 = k) = (alook k l).map (fun v => (k, v)) := by
  intro l
  induction l with
  | nil => rfl
  | cons hd t ih =>
    by_cases h : hd.1 = k
    · subst h
      simp [List.find?_cons, alook]
    · simp [List.find?_cons, h, alook, ih]

/-- `find?` on the max-merged records, reduced to a lookup in the seed
map. -/
theorem maxPlayerStats_find? (g : Game) (pid : String) :
    (maxPlayerStats g).find? (fun r => r.playerid = pid) =
      match (playersOfPlays (playsOf g)).find? (fun pl => pl.playerid = pid) with
      | some pl =>
          some (maxMergeOne g.gamePlayers (overwriteStats ⟨pl.playerid, []⟩ pl.stats))
      | none => none := by
  unfold maxPlayerStats
  rw [List.find?_map]
  have hg := (maxSeed_good (playersOfPlays (playsOf g))).1
  have hpred : ∀ kv ∈ (playersOfPlays (playsOf g)).foldl
      (fun acc pplay =>
        odInsert acc pplay.playerid (overwriteStats ⟨pplay.playerid, []⟩ pplay.stats)) [],
      ((fun (r : PlayerStats) => decide (r.playerid = pid)) ∘
        fun p => maxMergeOne g.gamePlayers p.2) kv =
      (decide ((kv : String × PlayerStats).1 = pid) : Bool) := by
    intro kv hkv
    simp only [Function.comp_apply, maxMergeOne_playerid]
    rw [hg.2 _ hkv]
  rw [find?_congr_mem hpred, find?_fst_alook,
    alook_maxSeed _ _ [] pid (playersOfPlays_nodup _) (by intro pl _; rfl)]
  cases (playersOfPlays (playsOf g)).find? (fun pl => pl.playerid = pid) with
  | some pl => simp
  | none => simp [alook]

/-! ### Lemmas about the player pass of `diff` -/

/-- A scan of `before` records containing no player-id match neither sets
`has_before` nor changes the accumulator. -/
theorem diffInner_step_nomatch {a : PlayerStats} :
    ∀ {bs : List PlayerStats} (st : Bool × List (String × PlayerStats)),
      (∀ b ∈ bs, b.playerid ≠ a.playerid) →
      bs.foldl
        (fun st b =>
          if b.playerid = a.playerid then
            (true,
              match subtractStats a b with
              | some pdiff => odInsert st.2 a.playerid pdiff
              | none => st.2)
          else st)
        st = st := by
  intro bs
  induction bs with
  | nil => intro st _; rfl
  | cons hd t ih =>
    intro st h
    rw [List.foldl_cons, if_neg (h hd (List.mem_cons_self _ _))]
    exact ih st fun b hb => h b (List.mem_cons_of_mem _ hb)

/-- With pairwise-distinct `before` player ids, the inner scan of `diff`
reduces to the first (only) match. -/
theorem diffInner_eq {bs : List PlayerStats}
    (hnd : (bs.map PlayerStats.playerid).Nodup) (a : PlayerStats)
    (acc : List (String × PlayerStats)) :
    diffInner a bs acc =
      match bs.find? (fun b => b.playerid = a.playerid) with
      | some b =>
          (true,
            match subtractStats a b with
            | some pdiff => odInsert acc a.playerid pdiff
            | none => acc)
      | none => (false, acc) := by
  unfold diffInner
  induction bs with
  | nil => rfl
  | cons hd t ih =>
    simp only [List.map_cons, List.nodup_cons] at hnd
    by_cases h : hd.playerid = a.playerid
    · rw [List.foldl_cons, if_pos h]
      have ht : ∀ b ∈ t, b.playerid ≠ a.playerid := by
        intro b hb hba
        exact hnd.1 (h ▸ hba ▸ List.mem_map.mpr ⟨b, hb, rfl⟩)
      rw [diffInner_step_nomatch _ ht]
      simp [List.find?_cons, h]
    · rw [List.foldl_cons, if_neg h, ih hnd.2]
      simp [List.find?_cons, h]

/-- The player delta, characterized per player id: the value stored for
`pid` is exactly what the design's per-entity rule computes from the two
max-merged maps. -/
theorem alook_diffPlayers {as bs : List PlayerStats}
    (hna : (as.map PlayerStats.playerid).Nodup)
    (hnb : (bs.map PlayerStats.playerid).Nodup) (pid : String) :
    alook pid (diffPlayers as bs) =
      mergeDiffSpec (as.find? (fun a => a.playerid = pid))
        (bs.find? (fun b => b.playerid = pid)) := by
  unfold diffPlayers
  suffices h : ∀ (l : List PlayerStats) (acc : List (String × PlayerStats)),
      ((l.map PlayerStats.playerid).Nodup) →
      (∀ a ∈ l, alook a.playerid acc = none) →
      alook pid (l.foldl
        (fun acc a =>
          let st := diffInner a bs acc
          if st.1 then st.2 else odInsert st.2 a.playerid a)
        acc) =
      match l.find? (fun a => a.playerid = pid) with
      | some a =>
          mergeDiffSpec (some a) (bs.find? (fun b => b.playerid = pid))
      | none => alook pid acc by
    rw [h as [] hna (by intro a _; rfl)]
    cases as.find? (fun a => a.playerid = pid) with
    | some a => rfl
    | none => simp [alook, mergeDiffSpec]
  intro l
  induction l with
  | nil => intro acc _ _; simp
  | cons hd t ih =>
    intro acc hnd hacc
    simp only [List.map_cons, List.nodup_cons] at hnd
    rw [List.foldl_cons]
    by_cases hpid : hd.playerid = pid
    · have ht : t.find? (fun a => a.playerid = pid) = none := by
        rw [List.find?_eq_none]
        intro a ha
        simp only [decide_eq_true_eq]
        intro h
        exact hnd.1 (hpid ▸ h ▸ List.mem_map.mpr ⟨a, ha, rfl⟩)
      have hfind : (hd :: t).find? (fun a => a.playerid = pid) = some hd := by
        simp [List.find?_cons, hpid]
      rw [hfind]
      have hacc0 : alook pid acc = none := by
        rw [← hpid]
        exact hacc hd (List.mem_cons_self _ _)
      cases hb : bs.find? (fun b => b.playerid = hd.playerid) with
      | some b =>
        have hb' : bs.find? (fun b => b.playerid = pid) = some b := by
          rw [← hpid]
          exact hb
        cases hsub : subtractStats hd b with
        | some pdiff =>
          have hstep : diffInner hd bs acc = (true, odInsert acc hd.playerid pdiff) := by
            rw [diffInner_eq hnb, hb]
            simp [hsub]
          simp only [hstep, eq_self_iff_true, if_true]
          rw [ih _ hnd.2 (by
            intro a ha
            rw [alook_odInsert, if_neg (by
              intro h
              exact hnd.1 (h ▸ List.mem_map.mpr ⟨a, ha, rfl⟩))]
            exact hacc _ (List.mem_cons_of_mem _ ha)), ht]
          show alook pid (odInsert acc hd.playerid pdiff) =
            mergeDiffSpec (some hd) (bs.find? (fun b => b.playerid = pid))
          rw [alook_odInsert, if_pos hpid, hb']
          show (some pdiff : Option PlayerStats) = subtractStats hd b
          rw [hsub]
        | none =>
          have hstep : diffInner hd bs acc = (true, acc) := by
            rw [diffInner_eq hnb, hb]
            simp [hsub]
          simp only [hstep, eq_self_iff_true, if_true]
          rw [ih _ hnd.2 (fun a ha => hacc _ (List.mem_cons_of_mem _ ha)), ht]
          show alook pid acc = mergeDiffSpec (some hd) (bs.find? (fun b => b.playerid = pid))
          rw [hacc0, hb']
          show (none : Option PlayerStats) = subtractStats hd b
          rw [hsub]
      | none =>
        have hb' : bs.find? (fun b => b.playerid = pid) = none := by
          rw [← hpid]
          exact hb
        have hstep : diffInner hd bs acc = (false, acc) := by
          rw [diffInner_eq hnb, hb]
        simp only [hstep, Bool.false_eq_true, if_false]
        rw [ih _ hnd.2 (by
          intro a ha
          rw [alook_odInsert, if_neg (by
            intro h
            exact hnd.1 (h ▸ List.mem_map.mpr ⟨a, ha, rfl⟩))]
          exact hacc _ (List.mem_cons_of_mem _ ha)), ht]
        show alook pid (odInsert acc hd.playerid hd) =
          mergeDiffSpec (some hd) (bs.find? (fun b => b.playerid = pid))
        rw [alook_odInsert, if_pos hpid, hb']
        rfl
    · have hfind : (hd :: t).find? (fun a => a.playerid = pid) =
          t.find? (fun a => a.playerid = pid) := by
        simp [List.find?_cons, hpid]
      rw [hfind]
      cases hb : bs.find? (fun b => b.playerid = hd.playerid) with
      | some b =>
        cases hsub : subtractStats hd b with
        | some pdiff =>
          have hstep : diffInner hd bs acc = (true, odInsert acc hd.playerid pdiff) := by
            rw [diffInner_eq hnb, hb]
            simp [hsub]
          simp only [hstep, eq_self_iff_true, if_true]
          rw [ih _ hnd.2 (by
            intro a ha
            rw [alook_odInsert, if_neg (by
              intro h
              exact hnd.1 (h ▸ List.mem_map.mpr ⟨a, ha, rfl⟩))]
            exact hacc _ (List.mem_cons_of_mem _ ha))]
          cases t.find? (fun a => a.playerid = pid) with
          | some a => rfl
          | none =>
            show alook pid (odInsert acc hd.playerid pdiff) = alook pid acc
            rw [alook_odInsert, if_neg hpid]
        | none =>
          have hstep : diffInner hd bs acc = (true, acc) := by
            rw [diffInner_eq hnb, hb]
            simp [hsub]
          simp only [hstep, eq_self_iff_true, if_true]
          exact ih _ hnd.2 (fun a ha => hacc _ (List.mem_cons_of_mem _ ha))
      | none =>
        have hstep : diffInner hd bs acc = (false, acc) := by
          rw [diffInner_eq hnb, hb]
        simp only [hstep, Bool.false_eq_true, if_false]
        rw [ih _ hnd.2 (by
          intro a ha
          rw [alook_odInsert, if_neg (by
            intro h
            exact hnd.1 (h ▸ List.mem_map.mpr ⟨a, ha, rfl⟩))]
          exact hacc _ (List.mem_cons_of_mem _ ha))]
        cases t.find? (fun a => a.playerid = pid) with
        | some a => rfl
        | none =>
          show alook pid (odInsert acc hd.playerid hd) = alook pid acc
          rw [alook_odInsert, if_neg hpid]

/-- In a list of records with pairwise-distinct player ids, searching for
a member's id finds that member. -/
theorem find?_self {l : List PlayerStats}
    (hnd : (l.map PlayerStats.playerid).Nodup) {a : PlayerStats}
    (ha : a ∈ l) : l.find? (fun b => b.playerid = a.playerid) = some a := by
  induction l with
  | nil => cases ha
  | cons hd t ih =>
    simp only [List.map_cons, List.nodup_cons] at hnd
    by_cases h : hd.playerid = a.playerid
    · have : a = hd := by
        rcases List.mem_cons.mp ha with h' | h'
        · exact h'
        · exact absurd (h ▸ List.mem_map.mpr ⟨a, h', rfl⟩) hnd.1
      subst this
      simp [List.find?_cons, h]
    · have hat : a ∈ t := by
        rcases List.mem_cons.mp ha with h' | h'
        · exact absurd (h' ▸ rfl) h
        · exact h'
      rw [List.find?_cons_of_neg _ (by simp [h])]
      exact ih hnd.2 hat

/-- Diffing a per-entity map against itself stores nothing. -/
theorem diffPlayers_self {A : List PlayerStats}
    (hnd : (A.map PlayerStats.playerid).Nodup)
    (hsub : ∀ a ∈ A, subtractStats a a = none) : diffPlayers A A = [] := by
  unfold diffPlayers
  suffices h : ∀ (l : List PlayerStats), (∀ a ∈ l, a ∈ A) →
      l.foldl
        (fun acc a =>
          let st := diffInner a A acc
          if st.1 then st.2 else odInsert st.2 a.playerid a)
        ([] : List (String × PlayerStats)) = [] by
    exact h A fun a ha => ha
  intro l
  induction l with
  | nil => intro _; rfl
  | cons hd t ih =>
    intro hl
    have hmem : hd ∈ A := hl hd (List.mem_cons_self _ _)
    have hstep : diffInner hd A [] = (true, []) := by
      rw [diffInner_eq hnd, find?_self hnd hmem]
      simp [hsub hd hmem]
    rw [List.foldl_cons]
    simp only [hstep, eq_self_iff_true, if_true]
    exact ih fun a ha => hl a (List.mem_cons_of_mem _ ha)

/-! ### Game-clock comparison lemmas -/

theorem gcCmp_eq_lt {a b : GameClock} :
    gcCmp a b = Ordering.lt ↔
      a.internalQ < b.internalQ ∨
        (a.internalQ = b.internalQ ∧
          (b.minutes < a.minutes ∨
            (a.minutes = b.minutes ∧ b.seconds < a.seconds))) := by
  unfold gcCmp
  by_cases hq : a.internalQ = b.internalQ
  · by_cases hm : a.minutes = b.minutes
    · simp [hq, hm, Nat.compare_eq_lt]
    · simp [hq, hm, Nat.compare_eq_lt]
  · simp [hq, Nat.compare_eq_lt]

theorem gcCmp_eq_gt {a b : GameClock} :
    gcCmp a b = Ordering.gt ↔
      b.internalQ < a.internalQ ∨
        (a.internalQ = b.internalQ ∧
          (a.minutes < b.minutes ∨
            (a.minutes = b.minutes ∧ a.seconds < b.seconds))) := by
  unfold gcCmp
  by_cases hq : a.internalQ = b.internalQ
  · by_cases hm : a.minutes = b.minutes
    · simp [hq, hm, Nat.compare_eq_gt]
    · simp [hq, hm, Nat.compare_eq_gt]
  · simp [hq, Nat.compare_eq_gt]

theorem gcCmp_eq_eq {a b : GameClock} :
    gcCmp a b = Ordering.eq ↔
      a.internalQ = b.internalQ ∧ a.minutes = b.minutes ∧
        a.seconds = b.seconds := by
  unfold gcCmp
  by_cases hq : a.internalQ = b.internalQ
  · by_cases hm : a.minutes = b.minutes
    · simp [hq, hm, Nat.compare_eq_eq]
      omega
    · simp [hq, hm, Nat.compare_eq_eq]
      omega
  · simp [hq, Nat.compare_eq_eq]

theorem gcLe_iff {a b : GameClock} :
    gcLe a b = true ↔
      a.internalQ < b.internalQ ∨
        (a.internalQ = b.internalQ ∧
          (b.minutes < a.minutes ∨
            (a.minutes = b.minutes ∧ b.seconds ≤ a.seconds))) := by
  unfold gcLe
  simp only [ne_eq, decide_eq_true_eq]
  constructor
  · intro h
    rcases ho : gcCmp a b with _ | _ | _
    · rcases gcCmp_eq_lt.mp ho with h' | h'
      · exact Or.inl h'
      · exact Or.inr ⟨h'.1, by omega⟩
    · have := gcCmp_eq_eq.mp ho
      exact Or.inr ⟨this.1, Or.inr ⟨this.2.1, le_of_eq this.2.2.symm⟩⟩
    · exact absurd ho h
  · intro h ho
    rcases gcCmp_eq_gt.mp ho with h' | h'
    · omega
    · omega

/-- The chain order of phases agrees with the private quarter index. -/
theorem phase_idx_mono {ph1 ph2 : Phase} (h : ph1.idx < ph2.idx) :
    qtrIndex ph1.qtrStr < qtrIndex ph2.qtrStr := by
  revert h
  revert ph1 ph2
  decide

theorem mergeSpecVal_none_right (x : Option Int) :
    mergeSpecVal x none = x := by
  cases x <;> rfl

/-- Looking up a key in a key-preserving map of an association list. -/
theorem alook_map_pair {β γ : Type} (F : String → β → γ) :
    ∀ (l : List (String × β)) (k : String),
      alook k (l.map (fun kv => (kv.1, F kv.1 kv.2))) =
        (alook k l).map (F k) := by
  intro l
  induction l with
  | nil => intro k; rfl
  | cons hd t ih =>
    intro k
    by_cases h : hd.1 = k
    · subst h
      simp [alook]
    · simp [alook, h, ih]

/-- For quarters read off plays (always integer), the private index is 1
exactly for Q1 and never 3 (3 is reserved to the halftime sentinel), so
the end-of-drive bump can only fire on Q1. -/
theorem qtrIndex_num_facts (n : Nat) :
    (qtrIndex (QtrStr.num n) = 1 ↔ n = 1) ∧ qtrIndex (QtrStr.num n) ≠ 3 := by
  unfold qtrIndex
  by_cases h : 3 ≤ n <;> simp [h] <;> omega

/-! ### Lemmas about `_json_drives` -/

/-- Iterating a dictionary's keys and looking each one back up visits
exactly the dictionary's entries. -/
theorem filterMap_keys_alook {κ β γ : Type} [DecidableEq κ] (g : β → Option γ) :
    ∀ (ps : List (κ × β)), ((ps.map Prod.fst).Nodup) →
      (ps.map Prod.fst).filterMap (fun n => (alook n ps).bind g) =
        ps.filterMap (fun p => g p.2) := by
  intro ps
  induction ps with
  | nil => intro _; rfl
  | cons hd t ih =>
    intro hnd
    simp only [List.map_cons, List.nodup_cons] at hnd
    have hhd : alook hd.1 (hd :: t) = some hd.2 := by
      simp [alook]
    have htail : (t.map Prod.fst).filterMap (fun n => (alook n (hd :: t)).bind g) =
        (t.map Prod.fst).filterMap (fun n => (alook n t).bind g) := by
      refine List.filterMap_congr fun n hn => ?_
      have : hd.1 ≠ n := fun h => hnd.1 (h ▸ hn)
      simp [alook, this]
    rw [List.map_cons, List.filterMap_cons, List.filterMap_cons]
    simp only [hhd, Option.some_bind, htail, ih hnd.2]

/-- Sorting the keys and then looking up is the same as sorting the
entries by key: the key lists agree. -/
theorem sortKeys_map_fst {β : Type} (data : List (Nat × β)) :
    (data.map Prod.fst).insertionSort (· ≤ ·) =
      (data.insertionSort (fun p q => p.1 ≤ q.1)).map Prod.fst := by
  have hp : ((data.map Prod.fst).insertionSort (· ≤ ·)).Perm
      ((data.insertionSort (fun p q => p.1 ≤ q.1)).map Prod.fst) :=
    (List.perm_insertionSort _ _).trans
      ((List.perm_insertionSort _ data).map Prod.fst).symm
  have h1 : List.Sorted (· ≤ ·) ((data.map Prod.fst).insertionSort (· ≤ ·)) :=
    List.sorted_insertionSort _ _
  have h2 : List.Sorted (· ≤ ·)
      ((data.insertionSort (fun p q => p.1 ≤ q.1)).map Prod.fst) := by
    have h := List.sorted_insertionSort (fun p q : Nat × β => p.1 ≤ q.1) data
    exact List.Pairwise.map Prod.fst (fun _ _ hab => hab) h
  exact List.eq_of_perm_of_sorted hp h1 h2

/-- A record is dropped by `Drive.__init__` (the `hasattr` test) exactly
when it has no plays. -/
theorem mkDrive_eq_none (rd : DriveData) :
    mkDrive rd = none ↔ rd.plays? = none ∨ rd.plays? = some [] := by
  cases h : rd.plays? with
  | none => simp [mkDrive, h]
  | some ps =>
    cases ps with
    | nil => simp [mkDrive, h]
    | cons p pt => simp [mkDrive, h]

/-- `_json_drives`, characterized declaratively: the drives of the valid
records, in ascending drive-id order, each built independently of every
other record. -/
theorem jsonDrives_eq_sorted (data : List (Nat × DriveData))
    (hnd : (data.map Prod.fst).Nodup) :
    jsonDrives data =
      (data.insertionSort (fun p q => p.1 ≤ q.1)).filterMap
        (fun p => mkDrive p.2) := by
  unfold jsonDrives
  rw [sortKeys_map_fst data]
  have hperm : data.Perm (data.insertionSort (fun p q => p.1 ≤ q.1)) :=
    (List.perm_insertionSort _ data).symm
  have hnd2 : ((data.insertionSort (fun p q => p.1 ≤ q.1)).map Prod.fst).Nodup :=
    ((hperm.map Prod.fst).nodup_iff).mp hnd
  have hlk : ∀ n, alook n data =
      alook n (data.insertionSort (fun p q => p.1 ≤ q.1)) :=
    fun n => alook_perm hnd hperm
  calc ((data.insertionSort (fun p q => p.1 ≤ q.1)).map Prod.fst).filterMap
        (fun n => (alook n data).bind mkDrive)
      = ((data.insertionSort (fun p q => p.1 ≤ q.1)).map Prod.fst).filterMap
          (fun n =>
            (alook n (data.insertionSort (fun p q => p.1 ≤ q.1))).bind mkDrive) := by
        refine List.filterMap_congr fun n _ => ?_
        rw [hlk n]
    _ = (data.insertionSort (fun p q => p.1 ≤ q.1)).filterMap
          (fun p => mkDrive p.2) :=
        filterMap_keys_alook mkDrive _ hnd2

/-- Projections of the clock constructor. -/
theorem mkGameClock_internalQ (q : QtrStr) (c : ClockStr) :
    (mkGameClock q c).internalQ = qtrIndex q := rfl

/-- Rebuilding a key-unique counter map by per-key assignment from empty
reproduces its lookups. -/
theorem alook_copy {s : List (String × Int)}
    (hnd : (s.map Prod.fst).Nodup) (k : String) :
    alook k (s.foldl (fun acc kv => odInsert acc kv.1 kv.2) []) = alook k s := by
  rw [alook_foldl_odInsert hnd]
  cases alook k s with
  | some v => rfl
  | none => rfl

/-! ### The claims -/

/-- C10: for every `Play` and every attribute name that does not start
with `'__'` and was never set on the play, the dynamic attribute lookup
returns `0` instead of raising `AttributeError`, so querying any
statistic field on any play always yields a number. -/
theorem claim10_missing_attr_zero (p : Play) (name : String)
    (h1 : "__".toList.isPrefixOf name.toList = false)
    (h2 : alook name p.stats = none) :
    p.getattrD name = Except.ok 0 := by
  unfold Play.getattrD
  rw [h2, h1]
  rfl

theorem claim10_witness :
    ("__".toList.isPrefixOf "defense_sk".toList = false) ∧
    alook "defense_sk" playRun.stats = none ∧
    playRun.getattrD "defense_sk" = Except.ok 0 :=
  ⟨by decide, by decide,
    claim10_missing_attr_zero playRun "defense_sk" (by decide) (by decide)⟩

/-- C3: diffing any snapshot against itself is empty — no plays in the
play delta and no entities in the per-entity delta map. -/
theorem claim3_diff_idempotent (x : Game) :
    diff x x = Except.ok { before := x, after := x, plays := [], players := [] } := by
  unfold diff
  rw [if_pos rfl]
  have hplays : (playsOf x).filter
      (fun p => ¬ (playsOf x).any (playEqb p)) = [] := by
    rw [List.filter_eq_nil_iff]
    intro p hp
    simp only [decide_eq_true_eq, Decidable.not_not]
    exact List.any_eq_true.mpr ⟨p, hp, by simp [playEqb]⟩
  have hplayers : diffPlayers (maxPlayerStats x) (maxPlayerStats x) = [] :=
    diffPlayers_self (maxPlayerStats_pids_nodup x)
      (fun a ha => subtractStats_self (maxPlayerStats_stats_nodup ha))
  simp only [hplays, hplayers]

/-- C2: `diff` fails with the identity-mismatch error when the two
snapshots carry different event ids; otherwise its play delta is exactly
the `after` plays whose identity (play id, description) appears nowhere
in `before`'s play list, kept in `after`'s order (a sublist of
`after`'s plays). -/
theorem claim2_play_delta (before after : Game) :
    (after.eid ≠ before.eid →
      diff before after = Except.error DiffError.eventIdentityMismatch) ∧
    (after.eid = before.eid → ∃ d, diff before after = Except.ok d ∧
      List.Sublist d.plays (playsOf after) ∧
      ∀ p, p ∈ d.plays ↔ p ∈ playsOf after ∧
        ∀ b ∈ playsOf before, ¬(p.playid = b.playid ∧ p.desc = b.desc)) := by
  constructor
  · intro h
    unfold diff
    rw [if_neg h]
  · intro h
    unfold diff
    rw [if_pos h]
    refine ⟨_, rfl, List.filter_sublist _, fun p => ?_⟩
    rw [List.mem_filter]
    simp only [decide_eq_true_eq]
    constructor
    · rintro ⟨hmem, hpred⟩
      refine ⟨hmem, fun b hb hid => ?_⟩
      exact hpred (List.any_eq_true.mpr ⟨b, hb, by
        simp [playEqb, hid.1, hid.2]⟩)
    · rintro ⟨hmem, hnone⟩
      refine ⟨hmem, fun hany => ?_⟩
      rcases List.any_eq_true.mp hany with ⟨b, hb, heq⟩
      simp only [playEqb, Bool.and_eq_true, decide_eq_true_eq] at heq
      exact hnone b hb heq

theorem claim2_witness :
    gAfter.eid = gBefore.eid ∧
    (∃ d, diff gBefore gAfter = Except.ok d ∧
      List.Sublist d.plays (playsOf gAfter) ∧
      ∀ p, p ∈ d.plays ↔ p ∈ playsOf gAfter ∧
        ∀ b ∈ playsOf gBefore, ¬(p.playid = b.playid ∧ p.desc = b.desc)) :=
  ⟨rfl, (claim2_play_delta gBefore gAfter).2 rfl⟩

/-- C1 (amended): drives are iterated in ascending numeric drive-id
order and a drive is excluded only when its record is invalid (no
`'plays'` key, or an empty play dictionary); each kept drive is built
from its own record alone, so a drive whose play ids repeat an earlier
drive's play ids is NOT rejected — play-id dedup happens only inside a
single drive. -/
theorem claim1_amended (data : List (Nat × DriveData))
    (hnd : (data.map Prod.fst).Nodup) :
    jsonDrives data =
      (data.insertionSort (fun p q => p.1 ≤ q.1)).filterMap
        (fun p => mkDrive p.2) ∧
    ∀ rd : DriveData, mkDrive rd = none ↔
      rd.plays? = none ∨ rd.plays? = some [] :=
  ⟨jsonDrives_eq_sorted data hnd, mkDrive_eq_none⟩

/-- C1 (counterexample): in `dupDrivesData`, drive 2 repeats play id 5
already seen in drive 1, yet both drives survive the parse (the claim
required the second drive to be excluded entirely). -/
theorem claim1_counterexample :
    (jsonDrives dupDrivesData).length = 2 ∧
    (jsonDrives dupDrivesData).map (fun d => d.plays.map Play.playid) =
      [[5], [5]] := by
  constructor
  · rfl
  · rfl

theorem claim1_witness :
    ((dupDrivesData.map Prod.fst).Nodup) ∧
    jsonDrives dupDrivesData =
      (dupDrivesData.insertionSort (fun p q => p.1 ≤ q.1)).filterMap
        (fun p => mkDrive p.2) :=
  ⟨by decide, (claim1_amended dupDrivesData (by decide)).1⟩

/-- C6 (amended): the midfield yard line gives offset 0, and otherwise
the offset is `50 - NN` with the sign flipped exactly when the named
territory EQUALS the possessing team (own territory is negative, per the
data model's invariant); the claim had the flip on the differing case. -/
theorem claim6_amended (posTeam team : String) (yd : Int) :
    fieldOffset? posTeam Yardline.mid = some 0 ∧
    (team = posTeam →
      fieldOffset? posTeam (Yardline.side team yd) = some (-(50 - yd))) ∧
    (team ≠ posTeam →
      fieldOffset? posTeam (Yardline.side team yd) = some (50 - yd)) ∧
    (team = posTeam → yd < 50 →
      ∀ o, fieldOffset? posTeam (Yardline.side team yd) = some o → o < 0) := by
  refine ⟨rfl, ?_, ?_, ?_⟩
  · intro ht
    simp [fieldOffset?, ht]
  · intro ht
    simp [fieldOffset?, ht]
  · intro ht hyd o ho
    simp [fieldOffset?, ht] at ho
    omega

/-- C6 (counterexample): possessing team NE at the NE 45 gets offset
`-5` (own territory), not the `50 - 45 = 5` the claim computes. -/
theorem claim6_counterexample :
    fieldOffset? "NE" (Yardline.side "NE" 45) = some (-5) ∧
    ((-5 : Int) ≠ 50 - 45) := by
  constructor
  · rfl
  · decide

theorem claim6_witness :
    ("NYG" : String) ≠ "NE" ∧
    fieldOffset? "NE" (Yardline.side "NYG" 2) = some 48 :=
  ⟨by decide, by
    have h := (claim6_amended "NE" "NYG" 2).2.2.1 (by decide)
    simpa using h⟩

/-- C4: in `diff(before, after)`, the per-entity delta holds, for each
player id, exactly what the design's rule computes from the two
max-merged maps: the subtraction when the entity is on both sides (and
only when it is non-empty), the full `after` record when the entity is
new, and nothing when the entity appears only in `before`. -/
theorem claim4_entity_delta (before after : Game)
    (h : after.eid = before.eid) :
    ∃ d, diff before after = Except.ok d ∧
      ∀ pid, alook pid d.players =
        mergeDiffSpec
          ((maxPlayerStats after).find? (fun a => a.playerid = pid))
          ((maxPlayerStats before).find? (fun b => b.playerid = pid)) := by
  unfold diff
  rw [if_pos h]
  exact ⟨_, rfl, fun pid =>
    alook_diffPlayers (maxPlayerStats_pids_nodup after)
      (maxPlayerStats_pids_nodup before) pid⟩

theorem claim4_witness :
    gAfter.eid = gBefore.eid ∧
    (∃ d, diff gBefore gAfter = Except.ok d ∧
      ∀ pid, alook pid d.players =
        mergeDiffSpec
          ((maxPlayerStats gAfter).find? (fun a => a.playerid = pid))
          ((maxPlayerStats gBefore).find? (fun b => b.playerid = pid))) :=
  ⟨rfl, claim4_entity_delta gBefore gAfter rfl⟩

/-- C8: the game-clock comparison is a total (pre)order; the eight
phases compare in the chain Pregame < Q1 < Q2 < Halftime < Q3 < Q4 <
Overtime < Final regardless of clock values; within one phase less
remaining time compares later; and Final is above every other phase. -/
theorem claim8_clock_total_order :
    (∀ a b : GameClock, gcLe a b = true ∨ gcLe b a = true) ∧
    (∀ a b c : GameClock,
      gcLe a b = true → gcLe b c = true → gcLe a c = true) ∧
    (∀ a b : GameClock,
      gcLe a b = true → gcLe b a = true → gcCmp a b = Ordering.eq) ∧
    (∀ (ph1 ph2 : Phase) (m1 s1 m2 s2 : Nat), ph1.idx < ph2.idx →
      gcCmp (phaseClock ph1 m1 s1) (phaseClock ph2 m2 s2) = Ordering.lt) ∧
    (∀ (ph : Phase) (m1 s1 m2 s2 : Nat),
      (m2 < m1 ∨ (m2 = m1 ∧ s2 < s1)) →
      gcCmp (phaseClock ph m1 s1) (phaseClock ph m2 s2) = Ordering.lt) ∧
    (∀ (ph : Phase) (m s m2 s2 : Nat), ph ≠ Phase.final →
      gcCmp (phaseClock ph m s) (phaseClock Phase.final m2 s2) =
        Ordering.lt) := by
  refine ⟨?_, ?_, ?_, ?_, ?_, ?_⟩
  · intro a b
    rw [gcLe_iff, gcLe_iff]
    omega
  · intro a b c h1 h2
    rw [gcLe_iff] at h1 h2 ⊢
    omega
  · intro a b h1 h2
    rw [gcLe_iff] at h1 h2
    rw [gcCmp_eq_eq]
    omega
  · intro ph1 ph2 m1 s1 m2 s2 h
    rw [gcCmp_eq_lt]
    exact Or.inl (phase_idx_mono h)
  · intro ph m1 s1 m2 s2 h
    rw [gcCmp_eq_lt]
    refine Or.inr ⟨rfl, ?_⟩
    show m2 < m1 ∨ (m1 = m2 ∧ s2 < s1)
    omega
  · intro ph m s m2 s2 hph
    rw [gcCmp_eq_lt]
    refine Or.inl ?_
    show qtrIndex ph.qtrStr < qtrIndex Phase.final.qtrStr
    revert hph
    revert ph
    decide

theorem claim8_witness :
    Phase.q3.idx < Phase.q4.idx ∧
    gcCmp (phaseClock Phase.q3 10 0) (phaseClock Phase.q4 10 0) =
      Ordering.lt :=
  ⟨by decide,
    claim8_clock_total_order.2.2.2.1 Phase.q3 Phase.q4 10 0 10 0 (by decide)⟩

/-- C9 (code evaluated at the failing input): one scheduled event whose
kickoff (instant 60) is still in the future; the feed already reports it
Final.  The tick at instant 0 classifies it completed, reports it, and
records its id — yet the tick at instant 15 reports the very same event
as completed again, because `_game_is_active` consults the completed set
only when the kickoff is in the past.  This contradicts `run`'s
documented guarantee (live.py:175-178) that a completed game is passed
to the callback exactly once. -/
theorem claim9_double_report :
    tick schedOne (fun _ => some gFinal) 900 0
        { completed := [], last := none } =
      ({ completed := ["2012090900"], last := some [] }, true,
        some ([], [gFinal], [])) ∧
    tick schedOne (fun _ => some gFinal) 900 15
        { completed := ["2012090900"], last := some [] } =
      ({ completed := ["2012090900", "2012090900"], last := some [] }, true,
        some ([], [gFinal], [])) := by
  constructor
  · rfl
  · rfl

/-- C7 (amended): a parsed drive's end clock carries the maximum quarter
observed among the drive's plays, and when that end clock is not later
than the start clock the quarter is advanced by one step ONLY when the
maximal play quarter is Q1.  A drive ending in Q3 is never advanced: the
sanity check compares the private quarter index, under which Q3 is 4,
and index 3 (halftime) cannot arise from integer play quarters. -/
theorem claim7_amended (rd : DriveData) (ps : List (Nat × PlayData))
    (hps : rd.plays? = some ps) (hne : ps ≠ []) :
    ((mkDrive rd).map Drive.time_end =
      some (if gcLe (driveEndClock0 rd ps) (driveStartClock rd) = true ∧
              driveMaxQ ps = 1
            then (driveEndClock0 rd ps).setQuarter 2
            else driveEndClock0 rd ps)) ∧
    (driveMaxQ ps ≠ 1 →
      (mkDrive rd).map Drive.time_end = some (driveEndClock0 rd ps)) := by
  cases ps with
  | nil => exact absurd rfl hne
  | cons p pt =>
    have hiq : (driveEndClock0 rd (p :: pt)).internalQ =
        qtrIndex (QtrStr.num (driveMaxQ (p :: pt))) := rfl
    have hmk : (mkDrive rd).map Drive.time_end =
        some (if gcLe (driveEndClock0 rd (p :: pt)) (driveStartClock rd) = true ∧
                ((driveEndClock0 rd (p :: pt)).internalQ = 1 ∨
                  (driveEndClock0 rd (p :: pt)).internalQ = 3)
              then (driveEndClock0 rd (p :: pt)).setQuarter
                     ((driveEndClock0 rd (p :: pt)).internalQ + 1)
              else driveEndClock0 rd (p :: pt)) := by
      simp only [mkDrive, hps]
      rfl
    have hiff : (gcLe (driveEndClock0 rd (p :: pt)) (driveStartClock rd) = true ∧
        ((driveEndClock0 rd (p :: pt)).internalQ = 1 ∨
          (driveEndClock0 rd (p :: pt)).internalQ = 3)) ↔
        (gcLe (driveEndClock0 rd (p :: pt)) (driveStartClock rd) = true ∧
          driveMaxQ (p :: pt) = 1) := by
      have facts := qtrIndex_num_facts (driveMaxQ (p :: pt))
      rw [hiq]
      constructor
      · rintro ⟨hle, h1 | h3⟩
        · exact ⟨hle, facts.1.mp h1⟩
        · exact absurd h3 facts.2
      · rintro ⟨hle, hm⟩
        exact ⟨hle, Or.inl (facts.1.mpr hm)⟩
    constructor
    · rw [hmk]
      by_cases hc : gcLe (driveEndClock0 rd (p :: pt)) (driveStartClock rd) = true ∧
          driveMaxQ (p :: pt) = 1
      · rw [if_pos (hiff.mpr hc), if_pos hc]
        have h1 : (driveEndClock0 rd (p :: pt)).internalQ = 1 := by
          rw [hiq]
          exact (qtrIndex_num_facts _).1.mpr hc.2
        rw [h1]
      · rw [if_neg (fun hcontra => hc (hiff.mp hcontra)), if_neg hc]
    · intro hmq
      rw [hmk, if_neg (fun hcontra => hmq (hiff.mp hcontra).2)]

/-- C7 (counterexample): a drive whose plays all report Q3, with end
clock 10:00 not later than start clock 5:00 — the end phase stays Q3
instead of advancing to Q4 as the claim requires. -/
theorem claim7_counterexample :
    (mkDrive ddQ3).map Drive.time_end =
      some (mkGameClock (.num 3) (.mmss 10 0)) ∧
    (mkDrive ddQ3).map Drive.time_start =
      some (mkGameClock (.num 3) (.mmss 5 0)) ∧
    gcLe (mkGameClock (.num 3) (.mmss 10 0))
        (mkGameClock (.num 3) (.mmss 5 0)) = true ∧
    (mkGameClock (QtrStr.num 3) (.mmss 10 0)).qtr = QtrStr.num 3 := by
  refine ⟨rfl, rfl, by decide, rfl⟩

theorem claim7_witness :
    ddQ3.plays? = some [(1, pdQ3a), (2, pdQ3b)] ∧
    (((mkDrive ddQ3).map Drive.time_end =
      some (if gcLe (driveEndClock0 ddQ3 [(1, pdQ3a), (2, pdQ3b)])
              (driveStartClock ddQ3) = true ∧
              driveMaxQ [(1, pdQ3a), (2, pdQ3b)] = 1
            then (driveEndClock0 ddQ3 [(1, pdQ3a), (2, pdQ3b)]).setQuarter 2
            else driveEndClock0 ddQ3 [(1, pdQ3a), (2, pdQ3b)])) ∧
    (driveMaxQ [(1, pdQ3a), (2, pdQ3b)] ≠ 1 →
      (mkDrive ddQ3).map Drive.time_end =
        some (driveEndClock0 ddQ3 [(1, pdQ3a), (2, pdQ3b)]))) :=
  ⟨rfl, claim7_amended ddQ3 _ rfl (by simp)⟩

/-- C5: in a snapshot's max-merged per-entity statistics, every stat key
of every entity maps to the maximum of the entity's play-level and
game-level values for that key, and a key present in only one of the two
sources passes through unchanged.  (Key-uniqueness of the raw stat maps
mirrors the Python `dict` invariant; the lower bound keeps real
statistic values above the `-sys.maxint` sentinel.) -/
theorem claim5_max_merge (g : Game)
    (hWFg : ∀ r ∈ g.gamePlayers, ((r.stats.map Prod.fst).Nodup))
    (hWFp : ∀ r ∈ playersOfPlays (playsOf g), ((r.stats.map Prod.fst).Nodup))
    (hbound : ∀ r ∈ g.gamePlayers, ∀ kv ∈ r.stats,
      -maxIntC ≤ (kv : String × Int).2)
    (pid : String) (st : PlayerStats)
    (hst : (maxPlayerStats g).find? (fun r => r.playerid = pid) = some st)
    (k : String) :
    alook k st.stats =
      mergeSpecVal
        (((playersOfPlays (playsOf g)).find? (fun r => r.playerid = pid)).bind
          (fun r => alook k r.stats))
        ((g.gamePlayers.find? (fun r => r.playerid = pid)).bind
          (fun r => alook k r.stats)) := by
  rw [maxPlayerStats_find? g pid] at hst
  cases hpp : (playersOfPlays (playsOf g)).find? (fun pl => pl.playerid = pid) with
  | none =>
    rw [hpp] at hst
    simp at hst
  | some pst =>
    rw [hpp] at hst
    simp only [Option.some.injEq] at hst
    have hpid : pst.playerid = pid := by
      have h := List.find?_some hpp
      simpa using h
    have hmem : pst ∈ playersOfPlays (playsOf g) :=
      List.mem_of_find?_eq_some hpp
    have hWFpst := hWFp pst hmem
    rw [hpid] at hst
    subst hst
    have hcopy_look : ∀ k' : String,
        alook k' (overwriteStats ⟨pid, []⟩ pst.stats).stats =
          alook k' pst.stats := by
      intro k'
      show alook k' (pst.stats.foldl (fun acc kv => odInsert acc kv.1 kv.2) []) =
        alook k' pst.stats
      exact alook_copy hWFpst k'
    unfold maxMergeOne
    simp only [overwriteStats_playerid]
    cases hgp : g.gamePlayers.find? (fun pg => pg.playerid = pid) with
    | none =>
      show alook k (overwriteStats ⟨pid, []⟩ pst.stats).stats = _
      rw [hcopy_look k]
      simp [mergeSpecVal_none_right]
    | some pgame =>
      have hgmem : pgame ∈ g.gamePlayers := List.mem_of_find?_eq_some hgp
      have hWFgame := hWFg pgame hgmem
      have hkeys : ((pgame.stats.map (fun kv =>
          (kv.1, max kv.2
            ((alook kv.1 (overwriteStats ⟨pid, []⟩ pst.stats).stats).getD
              (-maxIntC))))).map Prod.fst).Nodup := by
        rw [List.map_map]
        simpa using hWFgame
      show alook k ((pgame.stats.map (fun kv =>
          (kv.1, max kv.2
            ((alook kv.1 (overwriteStats ⟨pid, []⟩ pst.stats).stats).getD
              (-maxIntC))))).foldl
          (fun acc kv => odInsert acc kv.1 kv.2)
          (overwriteStats ⟨pid, []⟩ pst.stats).stats) = _
      rw [alook_foldl_odInsert hkeys]
      rw [alook_map_pair (fun kk vv => max vv
        ((alook kk (overwriteStats ⟨pid, []⟩ pst.stats).stats).getD
          (-maxIntC))) pgame.stats k]
      cases hg : alook k pgame.stats with
      | some gv =>
        rw [hcopy_look k]
        cases hp : alook k pst.stats with
        | some pv =>
          simp [mergeSpecVal, hp, hg, max_comm]
        | none =>
          have hb : -maxIntC ≤ gv := hbound pgame hgmem (k, gv) (alook_mem hg)
          simp [mergeSpecVal, hp, hg, max_eq_left hb]
      | none =>
        rw [hcopy_look k]
        simp [hg, mergeSpecVal_none_right]

theorem claim5_witness :
    (maxPlayerStats gAfter).find? (fun r => r.playerid = "00-0000001") =
      some ⟨"00-0000001", [("rushing_yds", 7)]⟩ ∧
    alook "rushing_yds"
        (PlayerStats.mk "00-0000001" [("rushing_yds", 7)]).stats =
      mergeSpecVal
        (((playersOfPlays (playsOf gAfter)).find?
            (fun r => r.playerid = "00-0000001")).bind
          (fun r => alook "rushing_yds" r.stats))
        ((gAfter.gamePlayers.find? (fun r => r.playerid = "00-0000001")).bind
          (fun r => alook "rushing_yds" r.stats)) :=
  ⟨rfl, claim5_max_merge gAfter (by decide) (by decide) (by decide)
    "00-0000001" ⟨"00-0000001", [("rushing_yds", 7)]⟩ rfl "rushing_yds"⟩

end NFLGame